import Mathlib

/-!
Shallow embedding of the Survey360 application (a Django 360-degree
feedback survey system) and proofs about its report aggregation,
validation and invitation logic.

Strings that are only compared for equality are modelled as Lean
`String`; strings that are inspected character by character (email
addresses) are modelled as `List Char`.  Timestamps are modelled as
integers.  Python's `round(x, 2)` is modelled as rounding `x * 100`
to the nearest integer and dividing by 100 (exact rational
arithmetic; no claim below depends on the tie-breaking direction).
-/

namespace Survey360

/-- Embeds `calculate_likert_score` from `survey/utils.py`: the
`dict.get(value, 4)` lookup becomes a chain of equality tests with a
default of `4`. -/
def calculate_likert_score (value : String) : Int :=
  if value = "significantly_above" then 7
  else if value = "above" then 6
  else if value = "slightly_above" then 5
  else if value = "meets" then 4
  else if value = "slightly_below" then 3
  else if value = "below" then 2
  else if value = "significantly_below" then 1
  else 4

/-- The seven recognized Likert values, in the order of the score
dictionary in `survey/utils.py`. -/
def likertKeys : List String :=
  ["significantly_above", "above", "slightly_above", "meets",
   "slightly_below", "below", "significantly_below"]

/-- Embeds one row of the `SurveyResponse` model together with its
rankings, as read by `view_report`:  `answers q` is
`getattr(response, f"q{q}_response")`, and each ranking is a
(label, rank) pair. -/
structure ResponseE where
  relationship : String
  is_leader_self_assessment : Bool
  answers : Nat → String
  strength_rankings : List (String × Int)
  opportunity_rankings : List (String × Int)

/-- Embeds the relationship re-mapping in `view_report`:
self-assessments are grouped under `"self"`. -/
def effectiveRelationship (r : ResponseE) : String :=
  if r.is_leader_self_assessment then "self" else r.relationship

/-- The keys of `scores_by_relationship` in `view_report`. -/
def relationshipKeys : List String :=
  ["self", "supervisor", "peer", "teacher", "student", "parent"]

/-- The question numbers 2..55 iterated by `view_report`
(`range(2, 56)`). -/
def questionNumbers : List Nat := List.range' 2 54

/-- Embeds the `scores` list built by `view_report` for question `q`:
responses with an empty answer are skipped (`if value:`), the rest are
mapped through `calculate_likert_score`. -/
def questionScores (responses : List ResponseE) (q : Nat) : List Int :=
  (responses.filter (fun r => !(r.answers q == ""))).map
    (fun r => calculate_likert_score (r.answers q))

/-- Embeds `scores_by_relationship[rel]` in `view_report`: the scores
of question `q` restricted to responses whose effective relationship
is `rel`. -/
def relationScores (responses : List ResponseE) (q : Nat) (rel : String) : List Int :=
  (responses.filter
    (fun r => !(r.answers q == "") && (effectiveRelationship r == rel))).map
    (fun r => calculate_likert_score (r.answers q))

/-- The arithmetic mean of a list of integer scores, as a rational. -/
def listAverage (l : List Int) : ℚ :=
  (l.sum : ℚ) / (l.length : ℚ)

/-- Models Python's `round(x, 2)` over exact rationals. -/
def pythonRound2 (x : ℚ) : ℚ :=
  (round (x * 100) : ℚ) / 100

/-- Embeds `question_stats[q_num]['average']` in `view_report`: absent
(`none`) when no response answered the question, otherwise the rounded
mean of the scores. -/
def question_average (responses : List ResponseE) (q : Nat) : Option ℚ :=
  let scores := questionScores responses q
  if scores.isEmpty then none
  else some (pythonRound2 (listAverage scores))

/-- Embeds `question_stats[q_num]['by_relationship'][rel]` in
`view_report`: absent when the question has no stats entry at all,
`none` for a relationship with zero observations
(`... if rel_scores else None`), otherwise the rounded mean. -/
def question_rel_average (responses : List ResponseE) (q : Nat) (rel : String) : Option ℚ :=
  if (questionScores responses q).isEmpty then none
  else if relationshipKeys.contains rel then
    let rs := relationScores responses q rel
    if rs.isEmpty then none
    else some (pythonRound2 (listAverage rs))
  else none

/-- Embeds the `all_scores` list in `view_report`: the concatenation of
the per-question score lists (questions with no scores contribute the
empty list, exactly as they contribute no `question_stats` entry). -/
def all_scores (responses : List ResponseE) : List Int :=
  questionNumbers.flatMap (fun q => questionScores responses q)

/-- Embeds `overall_average` in `view_report`:
`round(sum(all_scores) / len(all_scores), 2) if all_scores else 0`. -/
def overall_average (responses : List ResponseE) : ℚ :=
  if (all_scores responses).isEmpty then 0
  else pythonRound2 (listAverage (all_scores responses))

/-- A concrete response whose every answer is `"meets"`. -/
def rMeets : ResponseE :=
  { relationship := "peer"
    is_leader_self_assessment := false
    answers := fun _ => "meets"
    strength_rankings := []
    opportunity_rankings := [] }

lemma questionScores_const_meets (responses : List ResponseE) (q : Nat)
    (h : ∀ r ∈ responses, r.answers q = "meets") :
    questionScores responses q = List.replicate responses.length 4 := by
  induction responses with
  | nil => rfl
  | cons r rs ih =>
    have hr : r.answers q = "meets" := h r (List.mem_cons_self r rs)
    have hrs : ∀ x ∈ rs, x.answers q = "meets" :=
      fun x hx => h x (List.mem_cons_of_mem r hx)
    simp [questionScores, List.filter_cons, hr, calculate_likert_score,
      List.replicate_succ] at *
    exact ih hrs

lemma round2_four : pythonRound2 4 = 4 := by
  norm_num [pythonRound2]

lemma listAverage_replicate_four (n : Nat) (hn : n ≠ 0) :
    listAverage (List.replicate n (4 : Int)) = 4 := by
  have hn' : (n : ℚ) ≠ 0 := Nat.cast_ne_zero.mpr hn
  simp [listAverage, List.sum_replicate, List.length_replicate]
  field_simp

lemma round2_listAverage_const_four (l : List Int) (hne : l ≠ [])
    (h : ∀ x ∈ l, x = 4) : pythonRound2 (listAverage l) = 4 := by
  have hl : l = List.replicate l.length 4 :=
    List.eq_replicate_iff.mpr ⟨rfl, h⟩
  have hlen : l.length ≠ 0 := fun hc => hne (List.eq_nil_of_length_eq_zero hc)
  rw [hl, listAverage_replicate_four l.length hlen, round2_four]

/-- C1: if every response answers every Likert question (2..55) with
`"meets"`, and there is at least one response, then every per-question
average produced by the report is 4 and the overall average is 4. -/
theorem all_meets_average_is_four (responses : List ResponseE)
    (hne : responses ≠ [])
    (hm : ∀ r ∈ responses, ∀ q ∈ questionNumbers, r.answers q = "meets") :
    (∀ q ∈ questionNumbers, question_average responses q = some 4) ∧
    overall_average responses = 4 := by
  have hlen : responses.length ≠ 0 :=
    fun hc => hne (List.eq_nil_of_length_eq_zero hc)
  have hscores : ∀ q ∈ questionNumbers,
      questionScores responses q = List.replicate responses.length 4 := by
    intro q hq
    exact questionScores_const_meets responses q (fun r hr => hm r hr q hq)
  constructor
  · intro q hq
    rw [question_average]
    simp only [hscores q hq]
    rw [if_neg (by
      simp only [List.isEmpty_iff]
      intro hc
      exact hlen (by simpa using congrArg List.length hc))]
    rw [listAverage_replicate_four responses.length hlen, round2_four]
  · have hmem : ∀ x ∈ all_scores responses, x = (4 : Int) := by
      intro x hx
      rcases List.mem_flatMap.mp hx with ⟨q, hq, hxq⟩
      rw [hscores q hq] at hxq
      exact (List.eq_of_mem_replicate hxq)
    have htwo : (2 : Nat) ∈ questionNumbers := by decide
    have hfour : (4 : Int) ∈ all_scores responses := by
      refine List.mem_flatMap.mpr ⟨2, htwo, ?_⟩
      rw [hscores 2 htwo]
      exact List.mem_replicate.mpr ⟨hlen, rfl⟩
    have hne2 : all_scores responses ≠ [] := List.ne_nil_of_mem hfour
    rw [overall_average, if_neg (by simp [List.isEmpty_iff, hne2])]
    exact round2_listAverage_const_four _ hne2 hmem

/-- C1 witness: a single all-"meets" response yields average 4 on every
question and overall average 4. -/
theorem all_meets_average_is_four_witness :
    (∀ q ∈ questionNumbers, question_average [rMeets] q = some 4) ∧
    overall_average [rMeets] = 4 :=
  all_meets_average_is_four [rMeets] (by simp)
    (fun r hr q _ => by
      rcases List.mem_singleton.mp hr with rfl
      rfl)

/-- C3: `calculate_likert_score` maps the seven Likert values to 7..1
and everything else to the default 4. -/
theorem calculate_likert_score_spec :
    calculate_likert_score "significantly_above" = 7 ∧
    calculate_likert_score "above" = 6 ∧
    calculate_likert_score "slightly_above" = 5 ∧
    calculate_likert_score "meets" = 4 ∧
    calculate_likert_score "slightly_below" = 3 ∧
    calculate_likert_score "below" = 2 ∧
    calculate_likert_score "significantly_below" = 1 ∧
    (∀ v : String, v ∉ likertKeys → calculate_likert_score v = 4) := by
  refine ⟨rfl, rfl, rfl, rfl, rfl, rfl, rfl, ?_⟩
  intro v hv
  simp only [likertKeys, List.mem_cons, List.not_mem_nil, or_false, not_or] at hv
  obtain ⟨h1, h2, h3, h4, h5, h6, h7⟩ := hv
  simp [calculate_likert_score, h1, h2, h3, h4, h5, h6, h7]

/-- C3 witness: the default branch at a concrete unrecognized value. -/
theorem calculate_likert_score_spec_witness :
    calculate_likert_score "no_opinion" = 4 :=
  calculate_likert_score_spec.2.2.2.2.2.2.2 "no_opinion" (by decide)

/-- C4: with no responses every per-question statistic is absent, a
relationship category with zero observations is reported as absent
(`none`) rather than zero, and every average the report does produce
comes from a nonempty score list (so no aggregation step divides by
zero). -/
theorem empty_and_absent_statistics :
    (∀ q, question_average ([] : List ResponseE) q = none) ∧
    (∀ responses q rel, relationScores responses q rel = [] →
      question_rel_average responses q rel = none) ∧
    (∀ responses q x, question_average responses q = some x →
      questionScores responses q ≠ []) ∧
    (∀ responses q rel x, question_rel_average responses q rel = some x →
      relationScores responses q rel ≠ [] ∧ questionScores responses q ≠ []) := by
  refine ⟨?_, ?_, ?_, ?_⟩
  · intro q
    rfl
  · intro responses q rel hrel
    rw [question_rel_average]
    split
    · rfl
    · split
      · simp only [hrel]
        rfl
      · rfl
  · intro responses q x hx
    rw [question_average] at hx
    by_cases h : (questionScores responses q).isEmpty
    · rw [if_pos h] at hx
      exact absurd hx (by simp)
    · exact fun hc => h (by simp [hc])
  · intro responses q rel x hx
    rw [question_rel_average] at hx
    by_cases h : (questionScores responses q).isEmpty
    · rw [if_pos h] at hx
      exact absurd hx (by simp)
    · rw [if_neg h] at hx
      refine ⟨?_, fun hc => h (by simp [hc])⟩
      by_cases hk : relationshipKeys.contains rel
      · rw [if_pos hk] at hx
        by_cases hr : (relationScores responses q rel).isEmpty
        · rw [if_pos hr] at hx
          exact absurd hx (by simp)
        · exact fun hc => hr (by simp [hc])
      · rw [if_neg hk] at hx
        exact absurd hx (by simp)

lemma question_average_rMeets : question_average [rMeets] 2 = some 4 := by
  have h1 : questionScores [rMeets] 2 = [4] := rfl
  simp only [question_average, h1, List.isEmpty_cons]
  norm_num [listAverage, pythonRound2]

/-- C4 witness: concrete instances of the absent statistics. -/
theorem empty_and_absent_statistics_witness :
    question_average ([] : List ResponseE) 2 = none ∧
    question_rel_average [rMeets] 2 "student" = none ∧
    questionScores [rMeets] 2 ≠ [] :=
  ⟨empty_and_absent_statistics.1 2,
   empty_and_absent_statistics.2.1 [rMeets] 2 "student" rfl,
   (empty_and_absent_statistics.2.2.1 [rMeets] 2 4 question_average_rMeets)⟩

/-- Embeds the fields of `SurveyInvitation` in `survey/models.py` that
its validity predicates read. -/
structure SurveyInvitationE where
  used : Bool
  expires_at : Int
  used_at : Option Int

/-- Embeds the `is_expired` property: `timezone.now() > self.expires_at`. -/
def is_expired (inv : SurveyInvitationE) (now : Int) : Bool :=
  decide (inv.expires_at < now)

/-- Embeds the `is_valid` property:
`not self.used and not self.is_expired`. -/
def is_valid (inv : SurveyInvitationE) (now : Int) : Bool :=
  !inv.used && !(is_expired inv now)

/-- C5 counterexample: an unused invitation evaluated exactly at its
expiry timestamp is reported valid, although the current time is not
before `expires_at`; so validity is not equivalent to
`not used ∧ now < expires_at`. -/
theorem is_valid_at_expiry_counterexample :
    is_valid ⟨false, 0, none⟩ 0 = true ∧ ¬ ((0 : Int) < 0) := by decide

/-- C5 amended: `is_valid` is true iff the invitation is unused and the
current time is at or before (not strictly before) `expires_at`. -/
theorem is_valid_iff (inv : SurveyInvitationE) (now : Int) :
    is_valid inv now = true ↔ (inv.used = false ∧ now ≤ inv.expires_at) := by
  simp [is_valid, is_expired, not_lt, Bool.and_eq_true, Bool.not_eq_true']

/-- C5 amended witness: a concrete unused, unexpired invitation. -/
theorem is_valid_iff_witness :
    is_valid ⟨false, 5, none⟩ 3 = true :=
  (is_valid_iff ⟨false, 5, none⟩ 3).mpr (by decide)

/-- Embeds the form data read by `SurveyResponseForm` /
`LeaderSelfAssessmentForm`: the selected strength and opportunity
checkbox values, plus a flag standing for the validity of all the
remaining fields (relationship, the 54 Likert answers, free text). -/
structure FormData where
  strengths : List String
  opportunities : List String
  rest_valid : Bool

/-- Embeds `clean_strengths` in `survey/forms.py`. -/
def clean_strengths (l : List String) : Except String (List String) :=
  if l.length ≠ 5 then Except.error "Please select exactly 5 strengths."
  else Except.ok l

/-- Embeds `clean_opportunities` in `survey/forms.py`. -/
def clean_opportunities (l : List String) : Except String (List String) :=
  if l.length ≠ 5 then
    Except.error "Please select exactly 5 opportunities for improvement."
  else Except.ok l

/-- Embeds `form.is_valid()` for the survey response forms: the other
fields validate and both ranking cleaners accept. -/
def form_is_valid (fd : FormData) : Bool :=
  fd.rest_valid && (clean_strengths fd.strengths).isOk &&
    (clean_opportunities fd.opportunities).isOk

/-- The state touched by a submission against one invitation: the
invitation row and the number of responses created for it. -/
structure SubmissionState where
  invitation : SurveyInvitationE
  response_count : Nat

/-- The three outcomes of a POST to `participant_survey_view`. -/
inductive WebOutcome
  | invalidLink
  | thankYou
  | formWithErrors
deriving DecidableEq

/-- Embeds the POST path of `participant_survey_view` in
`survey/views.py`: a used or expired invitation is routed to the
invalid-link page; a valid form creates a response and marks the
invitation used; an invalid form re-renders without side effects. -/
def participant_submit (s : SubmissionState) (now : Int) (fd : FormData) :
    SubmissionState × WebOutcome :=
  if s.invitation.used || is_expired s.invitation now then
    (s, WebOutcome.invalidLink)
  else if form_is_valid fd then
    ({ invitation :=
        { s.invitation with used := true, used_at := some now },
       response_count := s.response_count + 1 }, WebOutcome.thankYou)
  else (s, WebOutcome.formWithErrors)

/-- The outcomes of the invitation branch of `api_submit_survey`. -/
inductive ApiOutcome
  | ok
  | alreadyCompleted
  | linkExpired
deriving DecidableEq

/-- Embeds the invitation branch of `api_submit_survey` in
`survey/views.py`: a used invitation answers the error JSON
`'Survey already completed'`, an expired one `'Survey link expired'`;
otherwise a response is created and the invitation marked used. -/
def api_submit (s : SubmissionState) (now : Int) :
    SubmissionState × ApiOutcome :=
  if s.invitation.used then (s, ApiOutcome.alreadyCompleted)
  else if is_expired s.invitation now then (s, ApiOutcome.linkExpired)
  else ({ invitation :=
           { s.invitation with used := true, used_at := some now },
          response_count := s.response_count + 1 }, ApiOutcome.ok)

/-- C6: a successful submission marks the invitation used exactly once
and creates exactly one response; afterwards any further submission with
the same token — through the web view or the API — is rejected and
leaves the state (in particular the response count) unchanged. -/
theorem invitation_single_use (s : SubmissionState) (now now2 now3 : Int)
    (fd fd2 : FormData)
    (hu : s.invitation.used = false)
    (he : is_expired s.invitation now = false)
    (hv : form_is_valid fd = true) :
    (participant_submit s now fd).2 = WebOutcome.thankYou ∧
    (participant_submit s now fd).1.invitation.used = true ∧
    (participant_submit s now fd).1.response_count = s.response_count + 1 ∧
    participant_submit (participant_submit s now fd).1 now2 fd2 =
      ((participant_submit s now fd).1, WebOutcome.invalidLink) ∧
    api_submit (participant_submit s now fd).1 now3 =
      ((participant_submit s now fd).1, ApiOutcome.alreadyCompleted) := by
  simp [participant_submit, api_submit, hu, he, hv]

/-- C6 witness: a concrete fresh invitation, submitted once and then
attacked again through both paths. -/
theorem invitation_single_use_witness :
    (participant_submit ⟨⟨false, 10, none⟩, 0⟩ 1
        ⟨["0", "1", "2", "3", "4"], ["5", "6", "7", "8", "9"], true⟩).2 =
      WebOutcome.thankYou ∧
    (participant_submit ⟨⟨false, 10, none⟩, 0⟩ 1
        ⟨["0", "1", "2", "3", "4"], ["5", "6", "7", "8", "9"], true⟩).1.invitation.used = true ∧
    (participant_submit ⟨⟨false, 10, none⟩, 0⟩ 1
        ⟨["0", "1", "2", "3", "4"], ["5", "6", "7", "8", "9"], true⟩).1.response_count = 0 + 1 ∧
    participant_submit
        (participant_submit ⟨⟨false, 10, none⟩, 0⟩ 1
          ⟨["0", "1", "2", "3", "4"], ["5", "6", "7", "8", "9"], true⟩).1 2
        ⟨["0", "1", "2", "3", "4"], ["5", "6", "7", "8", "9"], true⟩ =
      ((participant_submit ⟨⟨false, 10, none⟩, 0⟩ 1
          ⟨["0", "1", "2", "3", "4"], ["5", "6", "7", "8", "9"], true⟩).1,
        WebOutcome.invalidLink) ∧
    api_submit
        (participant_submit ⟨⟨false, 10, none⟩, 0⟩ 1
          ⟨["0", "1", "2", "3", "4"], ["5", "6", "7", "8", "9"], true⟩).1 3 =
      ((participant_submit ⟨⟨false, 10, none⟩, 0⟩ 1
          ⟨["0", "1", "2", "3", "4"], ["5", "6", "7", "8", "9"], true⟩).1,
        ApiOutcome.alreadyCompleted) :=
  invitation_single_use ⟨⟨false, 10, none⟩, 0⟩ 1 2 3
    ⟨["0", "1", "2", "3", "4"], ["5", "6", "7", "8", "9"], true⟩
    ⟨["0", "1", "2", "3", "4"], ["5", "6", "7", "8", "9"], true⟩
    rfl (by decide) (by decide)

/-- C7: the form validates only if exactly 5 strengths and exactly 5
opportunities are selected; with 4 or 6 in either category the cleaner
reports the field-level error, validation fails, and the submission
creates no response. -/
theorem exactly_five_rankings_required (fd : FormData)
    (s : SubmissionState) (now : Int) :
    (form_is_valid fd = true →
      fd.strengths.length = 5 ∧ fd.opportunities.length = 5) ∧
    ((fd.strengths.length = 4 ∨ fd.strengths.length = 6) →
      clean_strengths fd.strengths =
        Except.error "Please select exactly 5 strengths." ∧
      form_is_valid fd = false) ∧
    ((fd.opportunities.length = 4 ∨ fd.opportunities.length = 6) →
      clean_opportunities fd.opportunities =
        Except.error "Please select exactly 5 opportunities for improvement." ∧
      form_is_valid fd = false) ∧
    (form_is_valid fd = false → s.invitation.used = false →
      is_expired s.invitation now = false →
      participant_submit s now fd = (s, WebOutcome.formWithErrors)) := by
  refine ⟨?_, ?_, ?_, ?_⟩
  · intro hv
    simp only [form_is_valid, Bool.and_eq_true] at hv
    obtain ⟨⟨-, hs⟩, ho⟩ := hv
    constructor
    · by_contra hc
      rw [clean_strengths, if_pos hc] at hs
      exact absurd hs (by simp [Except.isOk, Except.toBool])
    · by_contra hc
      rw [clean_opportunities, if_pos hc] at ho
      exact absurd ho (by simp [Except.isOk, Except.toBool])
  · intro hl
    have hne : fd.strengths.length ≠ 5 := by
      rcases hl with h | h <;> omega
    have herr : clean_strengths fd.strengths =
        Except.error "Please select exactly 5 strengths." := by
      rw [clean_strengths, if_pos hne]
    refine ⟨herr, ?_⟩
    simp [form_is_valid, herr, Except.isOk, Except.toBool]
  · intro hl
    have hne : fd.opportunities.length ≠ 5 := by
      rcases hl with h | h <;> omega
    have herr : clean_opportunities fd.opportunities =
        Except.error "Please select exactly 5 opportunities for improvement." := by
      rw [clean_opportunities, if_pos hne]
    refine ⟨herr, ?_⟩
    simp [form_is_valid, herr, Except.isOk, Except.toBool]
  · intro hv hu he
    simp [participant_submit, hu, he, hv]

/-- C7 witness: a submission selecting 4 strengths fails validation and
creates no response. -/
theorem exactly_five_rankings_required_witness :
    clean_strengths ["0", "1", "2", "3"] =
      Except.error "Please select exactly 5 strengths." ∧
    form_is_valid ⟨["0", "1", "2", "3"], ["5", "6", "7", "8", "9"], true⟩ = false ∧
    participant_submit ⟨⟨false, 10, none⟩, 0⟩ 1
        ⟨["0", "1", "2", "3"], ["5", "6", "7", "8", "9"], true⟩ =
      (⟨⟨false, 10, none⟩, 0⟩, WebOutcome.formWithErrors) := by
  have h := exactly_five_rankings_required
    ⟨["0", "1", "2", "3"], ["5", "6", "7", "8", "9"], true⟩
    ⟨⟨false, 10, none⟩, 0⟩ 1
  have h2 := h.2.1 (Or.inl (by decide))
  exact ⟨h2.1, h2.2, h.2.2.2 h2.2 rfl (by decide)⟩

/-- Embeds Python's `str.split(sep)` for a one-character separator:
every occurrence splits, empty fields are kept. -/
def splitOnChar (sep : Char) : List Char → List (List Char)
  | [] => [[]]
  | c :: rest =>
    match splitOnChar sep rest with
    | [] => [[]]
    | grp :: rest2 =>
      if c = sep then [] :: grp :: rest2 else (c :: grp) :: rest2

/-- Embeds Python's `str.strip()`: drop whitespace from both ends. -/
def pyStrip (l : List Char) : List Char :=
  ((l.dropWhile Char.isWhitespace).reverse.dropWhile Char.isWhitespace).reverse

/-- Embeds Python's `str.lower()`. -/
def pyLower (l : List Char) : List Char := l.map Char.toLower

/-- Embeds `email.split('@')[1]` as read in `InvitationForm.clean_emails`
(safe there because the `'@' in email` test short-circuits first). -/
def emailSecondPart (e : List Char) : List Char :=
  (splitOnChar '@' e).getD 1 []

/-- Embeds the per-address test in `InvitationForm.clean_emails`:
`'@' in email and '.' in email.split('@')[1]`. -/
def email_ok (e : List Char) : Bool :=
  e.contains '@' && (emailSecondPart e).contains '.'

/-- The two `ValidationError` shapes `clean_emails` can raise. -/
inductive EmailError
  | invalidEmail (email : List Char)
  | noEmails
deriving DecidableEq

deriving instance DecidableEq for Except

/-- Embeds the loop body of `InvitationForm.clean_emails`: strip each
line, skip blank lines, reject the first address failing `email_ok`
(naming it), and collect the lowercased addresses. -/
def cleanEmailLines : List (List Char) → Except EmailError (List (List Char))
  | [] => Except.ok []
  | line :: rest =>
    if (pyStrip line).isEmpty then cleanEmailLines rest
    else if email_ok (pyStrip line) then
      match cleanEmailLines rest with
      | Except.error err => Except.error err
      | Except.ok es => Except.ok (pyLower (pyStrip line) :: es)
    else Except.error (EmailError.invalidEmail (pyStrip line))

/-- Embeds `InvitationForm.clean_emails`: split the textarea on
newlines, process the lines, and reject an empty result. -/
def clean_emails (text : List Char) : Except EmailError (List (List Char)) :=
  match cleanEmailLines (splitOnChar '\n' text) with
  | Except.error err => Except.error err
  | Except.ok [] => Except.error EmailError.noEmails
  | Except.ok es => Except.ok es

/-- Embeds the invitation-creation loop of `leader_dashboard_view`: for
each cleaned address, create an invitation only when no invitation with
that (survey, email) pair exists yet; returns the final set of
invitation emails for the survey. -/
def create_invitations (existing : List (List Char)) :
    List (List Char) → List (List Char)
  | [] => existing
  | e :: rest =>
    if existing.contains e then create_invitations existing rest
    else create_invitations (existing ++ [e]) rest

lemma splitOnChar_ne_nil (sep : Char) (l : List Char) :
    splitOnChar sep l ≠ [] := by
  induction l with
  | nil => simp [splitOnChar]
  | cons c rest ih =>
    cases h : splitOnChar sep rest with
    | nil => exact absurd h ih
    | cons g gs =>
      simp only [splitOnChar, h]
      split <;> simp

lemma splitOnChar_getD_zero (sep : Char) (l : List Char) :
    (splitOnChar sep l).getD 0 [] = l.takeWhile (fun c => !(c == sep)) := by
  induction l with
  | nil => simp [splitOnChar]
  | cons c rest ih =>
    cases h : splitOnChar sep rest with
    | nil => exact absurd h (splitOnChar_ne_nil sep rest)
    | cons g gs =>
      rw [h] at ih
      by_cases hc : c = sep
      · simp [splitOnChar, h, hc]
      · simp only [splitOnChar, h, if_neg hc, List.getD_cons_zero,
          List.takeWhile_cons]
        simp only [List.getD_cons_zero] at ih
        simp [beq_eq_false_iff_ne, hc, ih]

lemma splitOnChar_getD_one (sep : Char) (l : List Char)
    (h : l.contains sep = true) :
    (splitOnChar sep l).getD 1 [] =
      ((l.dropWhile (fun c => !(c == sep))).drop 1).takeWhile
        (fun c => !(c == sep)) := by
  induction l with
  | nil => simp at h
  | cons c rest ih =>
    by_cases hc : c = sep
    · cases hsp : splitOnChar sep rest with
      | nil => exact absurd hsp (splitOnChar_ne_nil sep rest)
      | cons g gs =>
        have hz := splitOnChar_getD_zero sep rest
        rw [hsp] at hz
        simp only [List.getD_cons_zero] at hz
        simp [splitOnChar, hsp, hc, hz]
    · have hrest : rest.contains sep = true := by
        simp only [List.contains_cons, Bool.or_eq_true] at h
        rcases h with h | h
        · exact absurd (beq_iff_eq.mp h).symm hc
        · exact h
      cases hsp : splitOnChar sep rest with
      | nil => exact absurd hsp (splitOnChar_ne_nil sep rest)
      | cons g gs =>
        have := ih hrest
        rw [hsp] at this
        simp only [splitOnChar, hsp, if_neg hc, List.getD_cons_succ]
        simp only [List.getD_cons_succ] at this
        rw [this]
        simp [List.dropWhile_cons, beq_eq_false_iff_ne, hc]

lemma email_ok_iff (e : List Char) :
    email_ok e = true ↔
      (e.contains '@' = true ∧
        (((e.dropWhile (fun c => !(c == '@'))).drop 1).takeWhile
            (fun c => !(c == '@'))).contains '.' = true) := by
  rw [email_ok, Bool.and_eq_true]
  constructor
  · rintro ⟨h1, h2⟩
    refine ⟨h1, ?_⟩
    rwa [emailSecondPart, splitOnChar_getD_one _ _ h1] at h2
  · rintro ⟨h1, h2⟩
    refine ⟨h1, ?_⟩
    rwa [emailSecondPart, splitOnChar_getD_one _ _ h1]

lemma cleanEmailLines_ok_of_valid (lines : List (List Char))
    (h : ∀ line ∈ lines, pyStrip line ≠ [] → email_ok (pyStrip line) = true) :
    ∃ es, cleanEmailLines lines = Except.ok es := by
  induction lines with
  | nil => exact ⟨[], rfl⟩
  | cons l rest ih =>
    have hrest : ∀ line ∈ rest, pyStrip line ≠ [] →
        email_ok (pyStrip line) = true :=
      fun line hm => h line (List.mem_cons_of_mem l hm)
    by_cases hs : (pyStrip l).isEmpty
    · obtain ⟨es, hes⟩ := ih hrest
      exact ⟨es, by simp [cleanEmailLines, hs, hes]⟩
    · have hne : pyStrip l ≠ [] := by
        simpa [List.isEmpty_iff] using hs
      have hok := h l (List.mem_cons_self l rest) hne
      obtain ⟨es, hes⟩ := ih hrest
      exact ⟨pyLower (pyStrip l) :: es, by simp [cleanEmailLines, hs, hok, hes]⟩

lemma cleanEmailLines_error_of_invalid (lines : List (List Char))
    (line : List Char) (hmem : line ∈ lines) (hne : pyStrip line ≠ [])
    (hbad : email_ok (pyStrip line) = false) :
    ∃ bad, cleanEmailLines lines = Except.error (EmailError.invalidEmail bad) ∧
      email_ok bad = false ∧ bad ∈ lines.map pyStrip := by
  induction lines with
  | nil => simp at hmem
  | cons l rest ih =>
    rcases List.mem_cons.mp hmem with rfl | hmem2
    · have hs : ¬ (pyStrip line).isEmpty := by
        simpa [List.isEmpty_iff] using hne
      exact ⟨pyStrip line,
        by simp [cleanEmailLines, hs, hbad],
        hbad, List.mem_cons_self _ _⟩
    · obtain ⟨bad, hres, hbad2, hmem3⟩ := ih hmem2
      by_cases hs : (pyStrip l).isEmpty
      · exact ⟨bad, by simp [cleanEmailLines, hs, hres], hbad2,
          List.mem_cons_of_mem _ hmem3⟩
      · by_cases hok : email_ok (pyStrip l)
        · exact ⟨bad, by simp [cleanEmailLines, hs, hok, hres], hbad2,
            List.mem_cons_of_mem _ hmem3⟩
        · exact ⟨pyStrip l,
            by simp [cleanEmailLines, hs, hok],
            Bool.eq_false_iff.mpr hok, List.mem_cons_self _ _⟩

lemma cleanEmailLines_ok_mem (lines : List (List Char))
    (es : List (List Char)) (h : cleanEmailLines lines = Except.ok es) :
    ∀ e ∈ es, ∃ line ∈ lines, e = pyLower (pyStrip line) := by
  induction lines generalizing es with
  | nil =>
    simp only [cleanEmailLines, Except.ok.injEq] at h
    subst h
    simp
  | cons l rest ih =>
    by_cases hs : (pyStrip l).isEmpty
    · rw [cleanEmailLines, if_pos hs] at h
      intro e he
      obtain ⟨line, hm, hl⟩ := ih es h e he
      exact ⟨line, List.mem_cons_of_mem l hm, hl⟩
    · by_cases hok : email_ok (pyStrip l)
      · rw [cleanEmailLines, if_neg hs, if_pos hok] at h
        cases hr : cleanEmailLines rest with
        | error err => rw [hr] at h; exact absurd h (by simp)
        | ok es2 =>
          rw [hr] at h
          simp only [Except.ok.injEq] at h
          subst h
          intro e he
          rcases List.mem_cons.mp he with rfl | he2
          · exact ⟨l, List.mem_cons_self l rest, rfl⟩
          · obtain ⟨line, hm, hl⟩ := ih es2 hr e he2
            exact ⟨line, List.mem_cons_of_mem l hm, hl⟩
      · rw [cleanEmailLines, if_neg hs, if_neg hok] at h
        exact absurd h (by simp)

lemma create_invitations_nodup (emails : List (List Char)) :
    ∀ existing : List (List Char), existing.Nodup →
      (create_invitations existing emails).Nodup := by
  induction emails with
  | nil => intro existing h; exact h
  | cons e rest ih =>
    intro existing h
    by_cases hc : existing.contains e
    · rw [create_invitations, if_pos hc]
      exact ih existing h
    · rw [create_invitations, if_neg hc]
      refine ih (existing ++ [e]) ?_
      have hnm : e ∉ existing := by
        intro hmem
        exact hc (List.elem_eq_true_of_mem hmem)
      exact List.Nodup.append h (List.nodup_singleton e)
        (fun a ha hb => hnm (by rwa [List.mem_singleton.mp hb] at ha))

/-- C8 counterexample: `"x@y@z.w"` contains an `'@'` with a `'.'` after
it (positions 1 and 5), yet `clean_emails` rejects it, because the
code only looks for a `'.'` between the first and second `'@'`. -/
theorem email_double_at_counterexample :
    ['x','@','y','@','z','.','w'].contains '@' = true ∧
    (['x','@','y','@','z','.','w'])[1]? = some '@' ∧
    (['x','@','y','@','z','.','w'])[5]? = some '.' ∧
    (1 : Nat) < 5 ∧
    email_ok ['x','@','y','@','z','.','w'] = false ∧
    clean_emails ['x','@','y','@','z','.','w'] =
      Except.error (EmailError.invalidEmail ['x','@','y','@','z','.','w']) := by
  decide

/-- C8 amended: an address passes the per-address check iff it contains
an `'@'` and the segment strictly between the first `'@'` and the next
`'@'` (or the end of the string) contains a `'.'`; all nonblank lines
passing makes the form accept, and any nonblank line failing makes the
whole form be rejected with an error naming the (first) invalid
stripped address. -/
theorem email_validation_amended :
    (∀ e : List Char, email_ok e = true ↔
      (e.contains '@' = true ∧
        (((e.dropWhile (fun c => !(c == '@'))).drop 1).takeWhile
            (fun c => !(c == '@'))).contains '.' = true)) ∧
    (∀ lines : List (List Char),
      ((∀ line ∈ lines, pyStrip line ≠ [] →
          email_ok (pyStrip line) = true) →
        ∃ es, cleanEmailLines lines = Except.ok es) ∧
      (∀ line ∈ lines, pyStrip line ≠ [] →
        email_ok (pyStrip line) = false →
        ∃ bad, cleanEmailLines lines =
            Except.error (EmailError.invalidEmail bad) ∧
          email_ok bad = false ∧ bad ∈ lines.map pyStrip)) :=
  ⟨email_ok_iff, fun lines =>
    ⟨cleanEmailLines_ok_of_valid lines,
     fun line hm hne hbad =>
       cleanEmailLines_error_of_invalid lines line hm hne hbad⟩⟩

/-- C8 amended witness: a valid single-line list is accepted. -/
theorem email_validation_amended_witness :
    ∃ es, cleanEmailLines [['a','@','b','.','c']] = Except.ok es :=
  (email_validation_amended.2 [['a','@','b','.','c']]).1 (by decide)

/-- C10: every address the invitation form accepts is the
whitespace-stripped, lowercased form of one of its input lines (so the
duplicate check and the invitation creation both see the normalized
address), and the dashboard's create-if-absent loop keeps the per-survey
invitation email list free of duplicates. -/
theorem invitation_emails_normalized :
    (∀ (text : List Char) (es : List (List Char)),
      clean_emails text = Except.ok es →
      ∀ e ∈ es, ∃ line ∈ splitOnChar '\n' text,
        e = pyLower (pyStrip line)) ∧
    (∀ existing emails : List (List Char), existing.Nodup →
      (create_invitations existing emails).Nodup) := by
  constructor
  · intro text es h
    have h2 : cleanEmailLines (splitOnChar '\n' text) = Except.ok es := by
      rw [clean_emails] at h
      cases hr : cleanEmailLines (splitOnChar '\n' text) with
      | error err => rw [hr] at h; exact absurd h (by simp)
      | ok es2 =>
        rw [hr] at h
        cases es2 with
        | nil => exact absurd h (by simp)
        | cons x xs =>
          simp only [Except.ok.injEq] at h
          rw [h]
    exact cleanEmailLines_ok_mem _ es h2
  · intro existing emails h
    exact create_invitations_nodup emails existing h

/-- C10 witness: the line `" A@b.C"` is accepted as `"a@b.c"`. -/
theorem invitation_emails_normalized_witness :
    ∃ line ∈ splitOnChar '\n' (' ' :: ['A','@','b','.','C']),
      ['a','@','b','.','c'] = pyLower (pyStrip line) :=
  invitation_emails_normalized.1 (' ' :: ['A','@','b','.','C'])
    [['a','@','b','.','c']] (by decide)
    ['a','@','b','.','c'] (List.mem_singleton.mpr rfl)

/-- Helper for `addRank`: append a rank to the entry of label `l`,
leave other entries unchanged (the effect of
`all_strengths[label].append(rank)` on one dict entry). -/
def appendToLabel (l : String) (r : Int) (e : String × List Int) :
    String × List Int :=
  if e.1 = l then (e.1, e.2 ++ [r]) else e

/-- Embeds one iteration of the collection loop in `view_report`: if the
label is not yet a key, add it at the end with a singleton rank list
(Python dicts preserve insertion order); otherwise append the rank to
its list. -/
def addRank (acc : List (String × List Int)) (p : String × Int) :
    List (String × List Int) :=
  if acc.any (fun e => decide (e.1 = p.1)) then acc.map (appendToLabel p.1 p.2)
  else acc ++ [(p.1, [p.2])]

/-- Embeds the `all_strengths` / `all_opportunities` dict built by
`view_report` from the flattened (label, rank) pairs. -/
def collectRanks (pairs : List (String × Int)) : List (String × List Int) :=
  pairs.foldl addRank []

/-- Embeds the list-comprehension step of `view_report`:
`(label, avg_rank, count)` for one dict entry. -/
def rankEntry (e : String × List Int) : String × ℚ × Nat :=
  (e.1, listAverage e.2, e.2.length)

/-- The sort relation of `top_strengths.sort(key=lambda x: x[1],
reverse=True)`: descending by mean rank. -/
def avgDescRel (a b : String × ℚ × Nat) : Prop := b.2.1 ≤ a.2.1

instance decAvgDescRel : DecidableRel avgDescRel :=
  fun a b => inferInstanceAs (Decidable (b.2.1 ≤ a.2.1))

instance : IsTotal (String × ℚ × Nat) avgDescRel :=
  ⟨fun a b => le_total b.2.1 a.2.1⟩

instance : IsTrans (String × ℚ × Nat) avgDescRel :=
  ⟨fun _ _ _ h1 h2 => le_trans h2 h1⟩

/-- Embeds Python's stable `list.sort(key=lambda x: x[1], reverse=True)`
as a stable insertion sort: an element is inserted after all earlier
elements whose key is greater than or equal to its own, so equal keys
keep their original relative order. -/
def sortByAvgDesc (l : List (String × ℚ × Nat)) : List (String × ℚ × Nat) :=
  List.insertionSort avgDescRel l

/-- Embeds the `top_strengths` / `top_opportunities` pipeline of
`view_report` on the flattened (label, rank) pairs: group into the
insertion-ordered dict, map to (label, mean, count), sort stably by
descending mean, keep the first 10. -/
def top_ranked (pairs : List (String × Int)) : List (String × ℚ × Nat) :=
  (sortByAvgDesc ((collectRanks pairs).map rankEntry)).take 10

/-- The `top_strengths[:10]` value of `view_report`. -/
def top_strengths (responses : List ResponseE) : List (String × ℚ × Nat) :=
  top_ranked (responses.flatMap (fun r => r.strength_rankings))

/-- The `top_opportunities[:10]` value of `view_report`. -/
def top_opportunities (responses : List ResponseE) : List (String × ℚ × Nat) :=
  top_ranked (responses.flatMap (fun r => r.opportunity_rankings))

/-- Specification-side reading: the ranks recorded for one label across
all (label, rank) pairs, in encounter order. -/
def ranksFor (pairs : List (String × Int)) (lab : String) : List Int :=
  (pairs.filter (fun p => decide (p.1 = lab))).map Prod.snd

/-- Specification-side reading: the distinct labels in first-encounter
order. -/
def firstLabels : List String → List String
  | [] => []
  | l :: ls => l :: firstLabels (ls.filter (fun x => decide (x ≠ l)))
termination_by l => l.length
decreasing_by
  simp only [List.length_cons]
  exact Nat.lt_succ_of_le (List.length_filter_le _ _)

/-- Specification-side reading: one report line for a label — the label,
the arithmetic mean of its ranks over all responses that selected it,
and how many selected it. -/
def labelSummary (pairs : List (String × Int)) (lab : String) :
    String × ℚ × Nat :=
  (lab, listAverage (ranksFor pairs lab), (ranksFor pairs lab).length)

/-- Specification-side reading of the whole pipeline: one line per
distinct label in first-encounter order, stably sorted by descending
mean rank, truncated to the top 10. -/
def spec_top_ranked (pairs : List (String × Int)) : List (String × ℚ × Nat) :=
  (sortByAvgDesc ((firstLabels (pairs.map Prod.fst)).map
    (labelSummary pairs))).take 10

/-- The entry built from one label group: the label with its collected
ranks. -/
def labelGroup (ps : List (String × Int)) (lab : String) : String × List Int :=
  (lab, ranksFor ps lab)

/-- The updated entry after all of `ps` has been folded in. -/
def withRanks (ps : List (String × Int)) (e : String × List Int) :
    String × List Int :=
  (e.1, e.2 ++ ranksFor ps e.1)

/-- Whether a label is not among the keys of the accumulator. -/
def notInAcc (acc : List (String × List Int)) (lab : String) : Bool :=
  !(acc.any (fun e => decide (e.1 = lab)))

lemma ranksFor_cons (l : String) (r : Int) (ps : List (String × Int))
    (lab : String) :
    ranksFor ((l, r) :: ps) lab =
      if l = lab then r :: ranksFor ps lab else ranksFor ps lab := by
  rw [ranksFor, List.filter_cons]
  by_cases h : l = lab
  · simp [h, ranksFor]
  · simp [h, ranksFor]

lemma mem_firstLabels {x : String} :
    ∀ l : List String, x ∈ firstLabels l → x ∈ l := by
  intro l
  induction l using firstLabels.induct with
  | case1 => simp [firstLabels]
  | case2 l ls ih =>
    intro h
    rw [firstLabels] at h
    rcases List.mem_cons.mp h with rfl | h2
    · exact List.mem_cons_self _ _
    · exact List.mem_cons_of_mem _ (List.mem_filter.mp (ih h2)).1

lemma withRanks_nil (e : String × List Int) : withRanks [] e = e := by
  simp [withRanks, ranksFor]

lemma appendToLabel_fst (l : String) (r : Int) (e : String × List Int) :
    (appendToLabel l r e).1 = e.1 := by
  rw [appendToLabel]
  split <;> rfl

lemma notInAcc_map_appendToLabel (acc : List (String × List Int))
    (l : String) (r : Int) :
    notInAcc (acc.map (appendToLabel l r)) = notInAcc acc := by
  funext lab
  rw [notInAcc, notInAcc, List.any_map]
  have hfun : ((fun e : String × List Int => decide (e.1 = lab)) ∘
      appendToLabel l r) = (fun e : String × List Int => decide (e.1 = lab)) := by
    funext e
    simp [Function.comp, appendToLabel_fst]
  rw [hfun]

lemma withRanks_appendToLabel (ps : List (String × Int)) (l : String)
    (r : Int) (e : String × List Int) :
    withRanks ps (appendToLabel l r e) = withRanks ((l, r) :: ps) e := by
  by_cases hel : e.1 = l
  · simp only [withRanks, appendToLabel, ranksFor_cons, if_pos hel,
      if_pos hel.symm]
    simp [List.append_assoc]
  · simp only [withRanks, appendToLabel, ranksFor_cons, if_neg hel,
      if_neg (fun hh : l = e.1 => hel hh.symm)]

lemma labelGroup_cons_of_ne (l : String) (r : Int) (ps : List (String × Int))
    (lab : String) (h : lab ≠ l) :
    labelGroup ((l, r) :: ps) lab = labelGroup ps lab := by
  have h2 : ¬ (l = lab) := fun hh => h hh.symm
  simp [labelGroup, ranksFor_cons, h2]

lemma foldl_addRank_eq (pairs : List (String × Int)) :
    ∀ acc : List (String × List Int),
      List.foldl addRank acc pairs =
        acc.map (withRanks pairs) ++
        (firstLabels ((pairs.map Prod.fst).filter (notInAcc acc))).map
          (labelGroup pairs) := by
  induction pairs with
  | nil =>
    intro acc
    have h1 : acc.map (withRanks []) = acc := by
      calc acc.map (withRanks []) = acc.map id :=
            List.map_congr_left (fun e _ => withRanks_nil e)
        _ = acc := List.map_id acc
    have h2 : firstLabels ((([] : List (String × Int)).map Prod.fst).filter
        (notInAcc acc)) = [] := by
      rw [List.map_nil, List.filter_nil, firstLabels]
    rw [List.foldl_nil, h2, List.map_nil, List.append_nil, h1]
  | cons p ps ih =>
    obtain ⟨l, r⟩ := p
    intro acc
    rw [List.foldl_cons]
    by_cases hmem : acc.any (fun e => decide (e.1 = l)) = true
    · have haddr : addRank acc (l, r) = acc.map (appendToLabel l r) := by
        rw [addRank, if_pos hmem]
      rw [haddr, ih, List.map_map, notInAcc_map_appendToLabel]
      congr 1
      · exact List.map_congr_left
          (fun e _ => withRanks_appendToLabel ps l r e)
      · have hfalse : notInAcc acc l = false := by simp [notInAcc, hmem]
        have hfil : ((((l, r) :: ps).map Prod.fst).filter (notInAcc acc)) =
            (ps.map Prod.fst).filter (notInAcc acc) := by
          simp [List.filter_cons, hfalse]
        rw [hfil]
        apply List.map_congr_left
        intro lab hlab
        have hlab2 : lab ∈ (ps.map Prod.fst).filter (notInAcc acc) :=
          mem_firstLabels _ hlab
        have hnot : notInAcc acc lab = true := (List.mem_filter.mp hlab2).2
        have hne : lab ≠ l := by
          intro hq
          subst hq
          rw [notInAcc, hmem] at hnot
          simp at hnot
        exact (labelGroup_cons_of_ne l r ps lab hne).symm
    · have hmemf : acc.any (fun e => decide (e.1 = l)) = false :=
        Bool.eq_false_iff.mpr hmem
      have haddr : addRank acc (l, r) = acc ++ [(l, [r])] := by
        rw [addRank, if_neg hmem]
      rw [haddr, ih, List.map_append, List.map_singleton]
      have htrue : notInAcc acc l = true := by simp [notInAcc, hmemf]
      have hfil : ((((l, r) :: ps).map Prod.fst).filter (notInAcc acc)) =
          l :: (ps.map Prod.fst).filter (notInAcc acc) := by
        simp [List.filter_cons, htrue]
      rw [hfil]
      rw [show firstLabels (l :: (ps.map Prod.fst).filter (notInAcc acc)) =
            l :: firstLabels (((ps.map Prod.fst).filter
              (notInAcc acc)).filter (fun x => decide (x ≠ l))) from
        by rw [firstLabels]]
      rw [List.map_cons]
      have hfilter2 : (((ps.map Prod.fst).filter (notInAcc acc)).filter
            (fun x => decide (x ≠ l))) =
          (ps.map Prod.fst).filter (notInAcc (acc ++ [(l, [r])])) := by
        rw [List.filter_filter]
        apply List.filter_congr
        intro lab _
        by_cases heq : lab = l
        · subst heq
          simp [notInAcc, List.any_append]
        · have hne2 : ¬ (l = lab) := fun hh => heq hh.symm
          simp [notInAcc, List.any_append, heq, hne2]
      rw [hfilter2]
      have hacc : acc.map (withRanks ps) =
          acc.map (withRanks ((l, r) :: ps)) := by
        apply List.map_congr_left
        intro e he
        have hne4 : ¬ (e.1 = l) := by
          have := List.any_eq_false.mp hmemf e he
          simpa using this
        have hne3 : ¬ (l = e.1) := fun hh => hne4 hh.symm
        simp [withRanks, ranksFor_cons, hne3]
      have hhead : withRanks ps (l, [r]) = labelGroup ((l, r) :: ps) l := by
        simp [withRanks, labelGroup, ranksFor_cons]
      have htail :
          (firstLabels ((ps.map Prod.fst).filter
              (notInAcc (acc ++ [(l, [r])])))).map (labelGroup ps) =
          (firstLabels ((ps.map Prod.fst).filter
              (notInAcc (acc ++ [(l, [r])])))).map
            (labelGroup ((l, r) :: ps)) := by
        apply List.map_congr_left
        intro lab hlab
        have hlab2 := mem_firstLabels _ hlab
        have hp := (List.mem_filter.mp hlab2).2
        have hne : lab ≠ l := by
          intro hq
          subst hq
          simp [notInAcc, List.any_append] at hp
        exact (labelGroup_cons_of_ne l r ps lab hne).symm
      rw [hacc, hhead, htail]
      simp [List.append_assoc]

lemma filter_notInAcc_nil (l : List String) : l.filter (notInAcc []) = l := by
  apply List.filter_eq_self.mpr
  intro a _
  rw [notInAcc]
  simp

lemma collectRanks_eq (pairs : List (String × Int)) :
    collectRanks pairs =
      (firstLabels (pairs.map Prod.fst)).map (labelGroup pairs) := by
  have h := foldl_addRank_eq pairs []
  rw [List.map_nil, List.nil_append, filter_notInAcc_nil] at h
  simp only [collectRanks]
  exact h

lemma top_ranked_eq_spec (pairs : List (String × Int)) :
    top_ranked pairs = spec_top_ranked pairs := by
  simp only [top_ranked, spec_top_ranked, collectRanks_eq, List.map_map]
  rfl

lemma sorted_top_ranked (pairs : List (String × Int)) :
    List.Sorted avgDescRel (top_ranked pairs) := by
  simp only [top_ranked, sortByAvgDesc]
  exact List.Pairwise.sublist (List.take_sublist 10 _)
    (List.sorted_insertionSort avgDescRel _)

/-- C2: the report's strength and opportunity rankings compute, for each
distinct label in first-encounter order, the arithmetic mean of its
ranks across all responses that selected it, sort the labels stably by
descending mean rank (equal means keep first-encounter order, by
stability of the sort), and keep at most the top 10 per category. -/
theorem report_top_rankings (responses : List ResponseE) :
    top_strengths responses =
      spec_top_ranked (responses.flatMap (fun r => r.strength_rankings)) ∧
    top_opportunities responses =
      spec_top_ranked (responses.flatMap (fun r => r.opportunity_rankings)) ∧
    List.Sorted avgDescRel (top_strengths responses) ∧
    List.Sorted avgDescRel (top_opportunities responses) ∧
    (top_strengths responses).length ≤ 10 ∧
    (top_opportunities responses).length ≤ 10 :=
  ⟨top_ranked_eq_spec _, top_ranked_eq_spec _,
   sorted_top_ranked _, sorted_top_ranked _,
   List.length_take_le 10 _, List.length_take_le 10 _⟩

/-- The strength labels of `get_strength_choices` in `survey/utils.py`,
indexed by the checkbox value posted by the form. -/
def get_strength_choices : List String :=
  ["Ability to guide others towards a common goal",
   "Possesses excellent oral communication skills",
   "Possesses effective written communication skills",
   "Great listener",
   "Expresses ideas clearly",
   "Supports teacher professional development",
   "Supports teachers in implementing effective instructional strategies",
   "Ability to build positive relationships with others",
   "Supports collaboration among all school stakeholders",
   "Ability to analyze challenges and implement solutions",
   "Creates a positive school culture",
   "Promotes and encourages innovation",
   "Supports and encourages continuous improvement",
   "Makes timely decisions aligned with school mission and goals",
   "Decisions encompass the needs of all stakeholders",
   "Uses data to inform major decisions",
   "Effectively manages emotions",
   "Resilient in effectively navigating change",
   "Able to navigate challenges and obstacles",
   "Has a clear vision for the school",
   "Able to motivate others to work towards shared goals",
   "Maintains a high level of integrity",
   "Create a positive school environment",
   "Committed to learning and growing professionally",
   "Is up to date on the latest research and best practices"]

/-- Embeds the strength-ranking save loop of `participant_survey_view`
(and `leader_self_assessment_view`): for the i-th selected strength id,
the stored rank is the posted `strength_rank_<id>` value if present,
else the positional default `5 - i`; no range or uniqueness check is
applied to the posted value. -/
def saved_strength_ranks (strengths : List Nat)
    (post_rank : Nat → Option Int) : List (String × Int) :=
  strengths.enum.map
    (fun p => (get_strength_choices.getD p.2 "",
               (post_rank p.2).getD (5 - (p.1 : Int))))

/-- C9: the save loop accepts an arbitrary posted rank, so a submission
posting `strength_rank_0 = 7` stores the out-of-range rank 7 even
though the model documents ranks as 1..5: the stored ranks are
`[7, 4, 3, 2, 1]` and the 1..5 range invariant fails. -/
theorem ranking_rank_unvalidated :
    ((saved_strength_ranks [0, 1, 2, 3, 4]
        (fun sid => if sid = 0 then some 7 else none)).map Prod.snd =
      [7, 4, 3, 2, 1]) ∧
    ¬ (∀ r ∈ (saved_strength_ranks [0, 1, 2, 3, 4]
        (fun sid => if sid = 0 then some 7 else none)).map Prod.snd,
        1 ≤ r ∧ r ≤ 5) := by
  decide

end Survey360
